import Mathlib

/-!
# Verification of the batch execution engine of nymo-art-v4

Shallow embedding of `src/backend/core/batch_processor.py` (class
`BatchProcessor`) and of the cancel endpoint in
`src/backend/app/routes/batch.py`, together with proofs about the
embedded definitions.

Modelling conventions:
* `engine.generate` plus the per-attempt artifact saving (the body of the
  `try:` block of `_process_single_job` up to the `completed_jobs.append`)
  is abstracted as a port function `Nat → Except String Unit`: the outcome
  of the 0-based attempt `k` is either success or a failure carrying the
  string `str(e)` of the raised exception (which may be empty, as
  `str(ValueError())` is in Python).
* The progress callback is modelled by `Option (Nat → Option String)`:
  `none` means no callback is registered; `some f` is a registered
  callback, and `f c` tells whether the call with `completed_so_far = c`
  returns normally (`none`) or raises an exception whose `str` is `msg`
  (`some msg`).  The code invokes the callback *inside* the retry `try:`
  block on the success path, so a raising callback re-enters the retry
  machinery - the model reproduces this faithfully.
* Within a wave the code runs jobs concurrently via `asyncio.gather`; the
  only shared mutable state is the pair of ledger lists
  `completed_jobs` / `failed_jobs` (whose lengths feed the callback).  The
  functional model `process_batch` executes the jobs of each wave in list
  order, i.e. it fixes one linearization of the ledger appends.  The
  instant-by-instant concurrency claims are treated separately by the
  small-step scheduler semantics (`SchedStep` / `SchedReach`) below.
* Wall-clock sleeps are recorded symbolically: the backoff sleeps
  `asyncio.sleep(2 ** attempt)` of a job are collected in `JobRec.sleeps`,
  and the `asyncio.sleep(1)` of `_wait_for_downloads` after each wave in
  `BatchOutcome.waveDelays`.
-/

/-- One `BatchJob` of the source (`batch_processor.py`, lines 25-39),
together with instrumentation counters that record how often the code
wrote the fields the spec talks about.  `status` is the literal Python
string; `error` is `None`/`str(e)`; `attemptsMade` counts the calls to
`engine.generate`; `completedAppends` / `failedAppends` count the
`self.completed_jobs.append(job)` / `self.failed_jobs.append(job)`
executions for this job; `endTimeWrites` counts assignments to
`job.end_time`; `sleeps` lists the backoff sleeps `2 ** attempt`. -/
structure JobRec where
  id : String
  prompt : String
  status : String
  error : Option String
  attemptsMade : Nat
  completedAppends : Nat
  failedAppends : Nat
  endTimeWrites : Nat
  sleeps : List Nat
deriving DecidableEq

/-- Global mutable state shared by all jobs of a run:
`ledger = len(self.completed_jobs) + len(self.failed_jobs)` and the list
of `completed_so_far` values passed to the progress callback so far. -/
structure RunState where
  ledger : Nat
  cbValues : List Nat
deriving DecidableEq

/-- The final-attempt failure branch of `_process_single_job`
(lines 314-327): set `job.status = "failed"`, `job.error = str(e)`,
`job.end_time`, append to `failed_jobs`, then report progress if a
callback is registered (an exception in that report escapes the function
but has no further effect, `gather(..., return_exceptions=True)`
swallows it). -/
def failTerminal (cb : Option (Nat → Option String)) (emsg : String)
    (j : JobRec) (g : RunState) : JobRec × RunState :=
  let j1 := { j with status := "failed", error := some emsg,
                     endTimeWrites := j.endTimeWrites + 1,
                     failedAppends := j.failedAppends + 1 }
  match cb with
  | none => (j1, { g with ledger := g.ledger + 1 })
  | some _ => (j1, { ledger := g.ledger + 1, cbValues := g.cbValues ++ [g.ledger + 1] })

/-- The retry loop `for attempt in range(self.config.retry_attempts + 1)`
of `_process_single_job` (lines 253-331).  `attempt` is the 0-based loop
index; `fuel` is the number of loop iterations still available including
the current one (so the call `fuel = 0` is never reached from
`process_single_job`, and `fuel = 1` means `attempt == retry_attempts`).
On success: `job.status = "completed"`, `job.end_time`, append to
`completed_jobs`, then the progress callback runs *inside* the `try:`;
if it raises, control falls into the `except` branch.  On failure at the
last attempt: `failTerminal`.  Otherwise `asyncio.sleep(2 ** attempt)`
and retry. -/
def jobAttempts (port : Nat → Except String Unit) (cb : Option (Nat → Option String)) :
    Nat → Nat → JobRec → RunState → JobRec × RunState
  | _, 0, j, g => (j, g)
  | attempt, fuel + 1, j, g =>
    match port attempt with
    | Except.ok _ =>
      let j1 := { j with attemptsMade := j.attemptsMade + 1,
                         status := "completed",
                         endTimeWrites := j.endTimeWrites + 1,
                         completedAppends := j.completedAppends + 1 }
      match cb with
      | none => (j1, { g with ledger := g.ledger + 1 })
      | some f =>
        let g1 : RunState := { ledger := g.ledger + 1, cbValues := g.cbValues ++ [g.ledger + 1] }
        match f (g.ledger + 1) with
        | none => (j1, g1)
        | some emsg =>
          if fuel = 0 then failTerminal cb emsg j1 g1
          else jobAttempts port cb (attempt + 1) fuel
                 { j1 with sleeps := j1.sleeps ++ [2 ^ attempt] } g1
    | Except.error emsg =>
      let j1 := { j with attemptsMade := j.attemptsMade + 1 }
      if fuel = 0 then failTerminal cb emsg j1 g
      else jobAttempts port cb (attempt + 1) fuel
             { j1 with sleeps := j1.sleeps ++ [2 ^ attempt] } g

/-- The job record at the top of `_process_single_job` (lines 240-243):
status set to `"processing"`, `start_time` recorded, all counters zero. -/
def initJob (id prompt : String) : JobRec :=
  { id := id, prompt := prompt, status := "processing", error := none,
    attemptsMade := 0, completedAppends := 0, failedAppends := 0,
    endTimeWrites := 0, sleeps := [] }

/-- `BatchProcessor._process_single_job` for one job: mark it processing
and run the retry loop with `retry_attempts + 1` iterations. -/
def process_single_job (retryAttempts : Nat) (port : Nat → Except String Unit)
    (cb : Option (Nat → Option String)) (id prompt : String) (g : RunState) :
    JobRec × RunState :=
  jobAttempts port cb 0 (retryAttempts + 1) (initJob id prompt) g

/-- Run the jobs of one wave.  The code launches them concurrently and
waits for all (`_process_batch_concurrent`); the model executes them in
list order, fixing one linearization of the ledger appends.  Each element
carries the job position (for the per-job port), its id and its prompt. -/
def runJobsInOrder (retryAttempts : Nat) (port : Nat → Nat → Except String Unit)
    (cb : Option (Nat → Option String)) :
    List (Nat × String × String) → RunState → List JobRec × RunState
  | [], g => ([], g)
  | (i, id, p) :: rest, g =>
    let r := process_single_job retryAttempts (port i) cb id p g
    let r2 := runJobsInOrder retryAttempts port cb rest r.2
    (r.1 :: r2.1, r2.2)

/-- `for i in range(0, len(self.jobs), m): batch = self.jobs[i:i+m]`
(line 187-188): slice the job list into consecutive waves of size `m`.
`fuel` bounds the recursion; `waveSlices` instantiates it with the list
length, which is always enough for `m ≥ 1`. -/
def chunksAux (m : Nat) : Nat → List α → List (List α)
  | 0, _ => []
  | _ + 1, [] => []
  | fuel + 1, a :: l => ((a :: l).take m) :: chunksAux m fuel ((a :: l).drop m)

/-- The wave decomposition of the job list used by `process_batch`. -/
def waveSlices (m : Nat) (l : List α) : List (List α) :=
  chunksAux m l.length l

/-- Run the waves one after the other (`await _process_batch_concurrent`
per wave, lines 187-198). -/
def runWaves (retryAttempts : Nat) (port : Nat → Nat → Except String Unit)
    (cb : Option (Nat → Option String)) :
    List (List (Nat × String × String)) → RunState → List JobRec × RunState
  | [], g => ([], g)
  | w :: ws, g =>
    let r := runJobsInOrder retryAttempts port cb w g
    let r2 := runWaves retryAttempts port cb ws r.2
    (r.1 ++ r2.1, r2.2)

/-- The summary dictionary built at lines 209-220 (the fields the claims
are about). -/
structure BatchSummary where
  totalJobs : Nat
  completed : Nat
  failed : Nat
  failedJobs : List (String × String × Option String)
deriving DecidableEq

/-- Observable outcome of `process_batch`: the summary, the per-job
records, the `completed_so_far` values passed to the progress callback,
and the `asyncio.sleep(1)` delays of `_wait_for_downloads` (one after
each wave, line 360). -/
structure BatchOutcome where
  summary : BatchSummary
  jobs : List JobRec
  cbValues : List Nat
  waveDelays : List Nat
deriving DecidableEq

/-- `BatchProcessor.process_batch` (lines 129-227).  Raises
`ValueError("No jobs loaded. ...")` when the job list is empty; with a
concurrency setting of 0 the Python `range(0, n, 0)` raises
`ValueError`.  Otherwise: reset the ledgers, slice the jobs into waves of
`max_concurrent_requests`, run each wave (then sleep 1), and build the
summary with `completed = len(self.completed_jobs)`,
`failed = len(self.failed_jobs)` and the failed-job echo list. -/
def enumJobs (jobs : List (String × String)) : List (Nat × String × String) :=
  ((List.range jobs.length).zip jobs).map fun p => (p.1, p.2.1, p.2.2)

def process_batch (maxConc retryAttempts : Nat) (jobs : List (String × String))
    (port : Nat → Nat → Except String Unit) (cb : Option (Nat → Option String)) :
    Except String BatchOutcome :=
  if jobs = [] then Except.error "No jobs loaded. Use load_csv() first."
  else if maxConc = 0 then Except.error "range() arg 3 must not be zero"
  else
    let ws := waveSlices maxConc (enumJobs jobs)
    let r := runWaves retryAttempts port cb ws { ledger := 0, cbValues := [] }
    Except.ok
      { summary :=
          { totalJobs := jobs.length
            completed := (r.1.map JobRec.completedAppends).sum
            failed := (r.1.map JobRec.failedAppends).sum
            failedJobs := (r.1.filter fun j => j.failedAppends != 0).map
              fun j => (j.id, j.prompt, j.error) }
        jobs := r.1
        cbValues := r.2.cbValues
        waveDelays := List.replicate ws.length 1 }

/-- A registered-or-absent callback that never raises. -/
def GoodCb (cb : Option (Nat → Option String)) : Prop :=
  ∀ f, cb = some f → ∀ c, f c = none

/-! ## Small-step scheduler semantics

`process_batch` creates, per wave, one `asyncio` task per job
(`_process_batch_concurrent`, lines 229-238) and `gather`s them before
the next wave starts.  A job's status becomes `"processing"` when its
task first runs (line 242) and is terminal when the task finishes.  The
following interleaving semantics captures exactly these instants: a job
may start only if it belongs to the active wave, tasks of the active wave
finish in any order, and the scheduler advances to the next wave only
once every job of the active wave is terminal. -/

/-- Job status values of `BatchJob.status` (line 30). -/
inductive JStat
  | pending
  | processing
  | completed
  | failed
deriving DecidableEq

/-- Terminal statuses. -/
def JTerminal (s : JStat) : Prop :=
  s = JStat.completed ∨ s = JStat.failed

/-- Scheduler configuration: the index of the active wave and the status
of every job (jobs identified by their position in `self.jobs`). -/
structure Conf where
  waveIdx : Nat
  st : Nat → JStat

/-- Initial configuration: first wave active, every job `"pending"`. -/
def initConf : Conf := { waveIdx := 0, st := fun _ => JStat.pending }

/-- One observable scheduler transition. -/
inductive SchedStep (ws : List (List Nat)) : Conf → Conf → Prop
  | start (c : Conf) (j : Nat)
      (hj : j ∈ ws.getD c.waveIdx [])
      (hp : c.st j = JStat.pending) :
      SchedStep ws c { waveIdx := c.waveIdx, st := Function.update c.st j JStat.processing }
  | finish (c : Conf) (j : Nat) (s : JStat)
      (hp : c.st j = JStat.processing)
      (hs : JTerminal s) :
      SchedStep ws c { waveIdx := c.waveIdx, st := Function.update c.st j s }
  | nextWave (c : Conf)
      (hk : c.waveIdx < ws.length)
      (hall : ∀ j ∈ ws.getD c.waveIdx [], JTerminal (c.st j)) :
      SchedStep ws c { waveIdx := c.waveIdx + 1, st := c.st }

/-- Configurations reachable during one run. -/
inductive SchedReach (ws : List (List Nat)) : Conf → Prop
  | init : SchedReach ws initConf
  | step {c c' : Conf} : SchedReach ws c → SchedStep ws c c' → SchedReach ws c'

/-- Number of jobs (among the `n` jobs of the run) whose status is
`"processing"` in configuration `c`. -/
def processingCount (n : Nat) (c : Conf) : Nat :=
  ((Finset.range n).filter fun j => c.st j = JStat.processing).card

/-! ## The cancel endpoint

`cancel_batch` in `src/backend/app/routes/batch.py` (lines 395-410). -/

/-- The `active_batches[batch_id]` record, restricted to the fields the
endpoint touches, plus the processor's job list (status and error of each
`BatchJob`), which the endpoint does *not* touch. -/
structure BatchInfo where
  status : String
  endTimeSet : Bool
  jobs : List (String × Option String)
deriving DecidableEq

/-- `DELETE /batch/{batch_id}`: 404 if unknown, 400 if the stored status
is already terminal, otherwise set the stored status to `"cancelled"` and
stamp an end time.  Nothing else happens: the processor and its jobs are
untouched and the background task keeps running. -/
def cancel_batch (info : Option BatchInfo) : Except Nat (BatchInfo × String) :=
  match info with
  | none => Except.error 404
  | some b =>
    if b.status = "completed" ∨ b.status = "failed" ∨ b.status = "cancelled" then
      Except.error 400
    else
      Except.ok ({ b with status := "cancelled", endTimeSet := true }, "Batch cancelled")

/-! ## CSV ingestion

`BatchProcessor.load_csv` (lines 90-127).  The `csv.DictReader` is
modelled at the row level: the header is the first CSV record, every
further record is a list of field strings.  `DictReader` skips blank
records (`row == []`) without consuming an `enumerate` index, builds
`dict(zip(fieldnames, row))` and fills missing trailing fields with
`None`; for duplicate header names the last assignment wins, exactly as
for Python `dict`. -/

/-- The row dictionary `dict(zip(fieldnames, row))` with `restval = None`
for the missing trailing fields. -/
def rowDict (header row : List String) : List (String × Option String) :=
  header.zip (row.map some ++ List.replicate (header.length - row.length) none)

/-- Dictionary lookup: outer `none` is a `KeyError` (key not among the
fieldnames), inner `none` is a stored Python `None`.  Later duplicate
keys override earlier ones, hence the lookup from the right. -/
def dget (d : List (String × Option String)) (k : String) : Option (Option String) :=
  (d.reverse.find? fun p => p.1 == k).map fun p => p.2

/-- Python `str.strip('"')`: drop all leading and trailing `"`
characters. -/
def stripQuotes (s : String) : String :=
  ((s.toList.dropWhile fun c => c = '"').reverse.dropWhile fun c => c = '"').reverse.asString

/-- Python `str.strip()`: drop leading and trailing whitespace
characters (modelled by `Char.isWhitespace`). -/
def pyStrip (s : String) : String :=
  ((s.toList.dropWhile Char.isWhitespace).reverse.dropWhile Char.isWhitespace).reverse.asString

/-- `row['prompt'].strip().strip('"')` (line 112). -/
def cleanPrompt (v : String) : String :=
  stripQuotes (pyStrip v)

/-- A loaded job as appended at lines 114-118: id `job_{i+1:03d}`, the
cleaned prompt, and the default status `"pending"`. -/
def mkLoadedJob (i : Nat) (p : String) : String × String × String :=
  let s := Nat.repr (i + 1)
  ("job_" ++ ((List.replicate (3 - s.length) '0').asString ++ s), p, "pending")

/-- The cleaned prompt value of a row, when the row supplies one:
`some (cleanPrompt v)` when the row dictionary holds a string `v` for
`prompt`, `none` when the field is missing (`None`) or the key is
absent. -/
def promptField (header row : List String) : Option String :=
  match dget (rowDict header row) "prompt" with
  | some (some v) => some (cleanPrompt v)
  | _ => none

/-- The `for i, row in enumerate(reader)` loop of `load_csv`: blank rows
are skipped by `DictReader` (no index consumed); a row whose `prompt`
field is missing makes `None.strip()` raise `AttributeError`; rows whose
cleaned prompt is empty are skipped but consume an index. -/
def loadRows (header : List String) : Nat → List (List String) →
    Except String (List (String × String × String) × Nat)
  | _, [] => Except.ok ([], 0)
  | i, row :: rest =>
    if row = [] then loadRows header i rest
    else
      match dget (rowDict header row) "prompt" with
      | none => Except.error "KeyError: prompt"
      | some none =>
          Except.error "AttributeError: \x27NoneType\x27 object has no attribute \x27strip\x27"
      | some (some v) =>
          let p := cleanPrompt v
          if p = "" then loadRows header (i + 1) rest
          else
            match loadRows header (i + 1) rest with
            | Except.error e => Except.error e
            | Except.ok (js, n) => Except.ok (mkLoadedJob i p :: js, n + 1)

/-- `BatchProcessor.load_csv`: `ValueError` when the header has no
`prompt` column, otherwise the loaded jobs and the returned
`jobs_loaded` count. -/
def load_csv (header : List String) (rows : List (List String)) :
    Except String (List (String × String × String) × Nat) :=
  if "prompt" ∈ header then loadRows header 0 rows
  else Except.error "CSV must contain \x27prompt\x27 column"

/-- The seven-prompt fixture of the spec scenario. -/
def sevenJobs : List (String × String) :=
  [("job_001", "p1"), ("job_002", "p2"), ("job_003", "p3"), ("job_004", "p4"),
   ("job_005", "p5"), ("job_006", "p6"), ("job_007", "p7")]

/-! ## Wave-slicing lemmas -/

theorem chunksAux_nil (m fuel : Nat) : chunksAux m fuel ([] : List α) = [] := by
  cases fuel <;> rfl

theorem chunksAux_join {m : Nat} (hm : 0 < m) :
    ∀ (fuel : Nat) (l : List α), l.length ≤ fuel → (chunksAux m fuel l).flatten = l := by
  intro fuel
  induction fuel with
  | zero =>
    intro l hl
    have : l = [] := List.length_eq_zero.mp (Nat.le_zero.mp hl)
    subst this; rfl
  | succ f ih =>
    intro l hl
    cases l with
    | nil => rfl
    | cons a t =>
      have hd : ((a :: t).drop m).length ≤ f := by
        rw [List.length_drop]
        simp only [List.length_cons] at hl ⊢
        omega
      simp only [chunksAux, List.flatten_cons, ih _ hd, List.take_append_drop]

theorem chunksAux_mem_length_le {m : Nat} :
    ∀ (fuel : Nat) (l : List α) (w : List α), w ∈ chunksAux m fuel l → w.length ≤ m := by
  intro fuel
  induction fuel with
  | zero => intro l w h; simp [chunksAux] at h
  | succ f ih =>
    intro l w h
    cases l with
    | nil => simp [chunksAux] at h
    | cons a t =>
      simp only [chunksAux, List.mem_cons] at h
      rcases h with h | h
      · subst h
        simp only [List.length_take]
        omega
      · exact ih _ _ h

theorem waveSlices_getD_length_le {m : Nat} (l : List α) (i : Nat) :
    ((waveSlices m l).getD i []).length ≤ m := by
  by_cases h : i < (waveSlices m l).length
  · have hmem : (waveSlices m l).getD i [] ∈ waveSlices m l := by
      rw [List.getD_eq_getElem _ _ h]
      exact List.getElem_mem _
    exact chunksAux_mem_length_le _ _ _ hmem
  · rw [List.getD_eq_default _ _ (Nat.le_of_not_lt h)]
    exact Nat.zero_le m

theorem chunksAux_ne_nil_of_mem {m fuel : Nat} {l : List α} :
    chunksAux m fuel l ≠ [] → l ≠ [] := by
  intro h hl
  subst hl
  exact h (chunksAux_nil m fuel)

theorem chunksAux_getD_full {m : Nat} (hm : 0 < m) :
    ∀ (fuel : Nat) (l : List α) (i : Nat), l.length ≤ fuel →
      i + 1 < (chunksAux m fuel l).length → ((chunksAux m fuel l).getD i []).length = m := by
  intro fuel
  induction fuel with
  | zero => intro l i _ hi; simp [chunksAux] at hi
  | succ f ih =>
    intro l i hl hi
    cases l with
    | nil => simp [chunksAux] at hi
    | cons a t =>
      have hd : ((a :: t).drop m).length ≤ f := by
        rw [List.length_drop]
        simp only [List.length_cons] at hl ⊢
        omega
      cases i with
      | zero =>
        simp only [chunksAux, List.length_cons] at hi
        have hrest : chunksAux m f ((a :: t).drop m) ≠ [] := by
          intro hnil
          rw [hnil] at hi
          simp at hi
        have hdrop : (a :: t).drop m ≠ [] := chunksAux_ne_nil_of_mem hrest
        have hlen : m < (a :: t).length := by
          by_contra hc
          exact hdrop (List.drop_eq_nil_iff.mpr (Nat.le_of_not_lt hc))
        simp only [chunksAux, List.getD_cons_zero, List.length_take]
        omega
      | succ i' =>
        simp only [chunksAux, List.length_cons] at hi
        simp only [chunksAux, List.getD_cons_succ]
        exact ih _ _ hd (by omega)

/-- The waves of a duplicate-free job list are pairwise disjoint: a job
index belongs to at most one wave. -/
theorem waveSlices_disj {m : Nat} (hm : 0 < m) {l : List Nat} (hnd : l.Nodup)
    {a b j : Nat} (ha : j ∈ (waveSlices m l).getD a [])
    (hb : j ∈ (waveSlices m l).getD b []) : a = b := by
  have hjoin : (waveSlices m l).flatten = l := chunksAux_join hm _ _ le_rfl
  have hflat : (waveSlices m l).flatten.Nodup := by rw [hjoin]; exact hnd
  have hpw : List.Pairwise List.Disjoint (waveSlices m l) :=
    (List.nodup_flatten.mp hflat).2
  by_contra hne
  have key : ∀ x y : Nat, x < y → j ∈ (waveSlices m l).getD x [] →
      j ∈ (waveSlices m l).getD y [] → False := by
    intro x y hxy hx hy
    have hylen : y < (waveSlices m l).length := by
      by_contra hc
      rw [List.getD_eq_default _ _ (Nat.le_of_not_lt hc)] at hy
      exact (List.not_mem_nil j) hy
    have hxlen : x < (waveSlices m l).length := Nat.lt_trans hxy hylen
    rw [List.getD_eq_getElem _ _ hxlen] at hx
    rw [List.getD_eq_getElem _ _ hylen] at hy
    exact (List.pairwise_iff_getElem.mp hpw x y hxlen hylen hxy) hx hy
  rcases Nat.lt_or_ge a b with h | h
  · exact key a b h ha hb
  · rcases Nat.lt_or_ge b a with h' | h'
    · exact key b a h' hb ha
    · exact hne (Nat.le_antisymm h' h)

/-! ## Scheduler invariant -/

/-- Waves are pairwise disjoint as index sets. -/
def DisjWaves (ws : List (List Nat)) : Prop :=
  ∀ a b j, j ∈ ws.getD a [] → j ∈ ws.getD b [] → a = b

/-- The invariant of the wave scheduler: every `"processing"` job belongs
to the active wave, every job of an already finished wave is terminal,
and every job of a future wave is still `"pending"`. -/
def WaveInv (ws : List (List Nat)) (c : Conf) : Prop :=
  (∀ j, c.st j = JStat.processing → j ∈ ws.getD c.waveIdx []) ∧
  (∀ i, i < c.waveIdx → ∀ j ∈ ws.getD i [], JTerminal (c.st j)) ∧
  (∀ i, c.waveIdx < i → ∀ j ∈ ws.getD i [], c.st j = JStat.pending)

theorem JTerminal.not_processing {s : JStat} (h : JTerminal s) :
    s ≠ JStat.processing := by
  rcases h with h | h <;> subst h <;> intro hc <;> cases hc

theorem JTerminal.not_pending {s : JStat} (h : JTerminal s) :
    s ≠ JStat.pending := by
  rcases h with h | h <;> subst h <;> intro hc <;> cases hc

theorem waveInv_step {ws : List (List Nat)} (hd : DisjWaves ws) {c c' : Conf}
    (hinv : WaveInv ws c) (hstep : SchedStep ws c c') : WaveInv ws c' := by
  obtain ⟨h1, h2, h3⟩ := hinv
  cases hstep with
  | start j hj hp =>
    refine ⟨?_, ?_, ?_⟩
    · intro j' hj'
      simp only [Function.update_apply] at hj'
      by_cases he : j' = j
      · subst he; exact hj
      · rw [if_neg he] at hj'
        exact h1 j' hj'
    · intro i hi j' hj'mem
      simp only at hi ⊢
      by_cases he : j' = j
      · subst he
        exact absurd (hd i c.waveIdx j' hj'mem hj) (by omega)
      · simp only [Function.update_apply, if_neg he]
        exact h2 i hi j' hj'mem
    · intro i hi j' hj'mem
      simp only at hi ⊢
      by_cases he : j' = j
      · subst he
        exact absurd (hd i c.waveIdx j' hj'mem hj) (by omega)
      · simp only [Function.update_apply, if_neg he]
        exact h3 i hi j' hj'mem
  | finish j s hp hs =>
    have hjw : j ∈ ws.getD c.waveIdx [] := h1 j hp
    refine ⟨?_, ?_, ?_⟩
    · intro j' hj'
      simp only [Function.update_apply] at hj'
      by_cases he : j' = j
      · subst he
        rw [if_pos rfl] at hj'
        exact absurd hj' hs.not_processing
      · rw [if_neg he] at hj'
        exact h1 j' hj'
    · intro i hi j' hj'mem
      simp only at hi ⊢
      by_cases he : j' = j
      · subst he
        simpa [Function.update_apply] using hs
      · simp only [Function.update_apply, if_neg he]
        exact h2 i hi j' hj'mem
    · intro i hi j' hj'mem
      simp only at hi ⊢
      by_cases he : j' = j
      · subst he
        exact absurd (hd i c.waveIdx j' hj'mem hjw) (by omega)
      · simp only [Function.update_apply, if_neg he]
        exact h3 i hi j' hj'mem
  | nextWave hk hall =>
    refine ⟨?_, ?_, ?_⟩
    · intro j' hj'
      simp only at hj'
      have := (hall j' (h1 j' hj')).not_processing
      exact absurd hj' this
    · intro i hi j' hj'mem
      simp only at hi ⊢
      rcases Nat.lt_or_ge i c.waveIdx with h | h
      · exact h2 i h j' hj'mem
      · have hieq : i = c.waveIdx := by omega
        subst hieq
        exact hall j' hj'mem
    · intro i hi j' hj'mem
      simp only at hi ⊢
      exact h3 i (by omega) j' hj'mem

theorem waveInv_reach {ws : List (List Nat)} (hd : DisjWaves ws) {c : Conf}
    (h : SchedReach ws c) : WaveInv ws c := by
  induction h with
  | init =>
    refine ⟨?_, ?_, ?_⟩
    · intro j hj; cases hj
    · intro i hi; simp [initConf] at hi
    · intro i _ j _; rfl
  | step _ hstep ih => exact waveInv_step hd ih hstep

theorem waveSlices_range_disj {m n : Nat} (hm : 0 < m) :
    DisjWaves (waveSlices m (List.range n)) := fun _ _ _ ha hb =>
  waveSlices_disj hm (List.nodup_range n) ha hb

theorem processingCount_le {ws : List (List Nat)} {c : Conf} (n m : Nat)
    (hinv : WaveInv ws c) (hwave : ((ws.getD c.waveIdx []).length ≤ m)) :
    processingCount n c ≤ m := by
  have hsub : ((Finset.range n).filter fun j => c.st j = JStat.processing) ⊆
      (ws.getD c.waveIdx []).toFinset := by
    intro j hj
    rw [Finset.mem_filter] at hj
    exact List.mem_toFinset.mpr (hinv.1 j hj.2)
  calc ((Finset.range n).filter fun j => c.st j = JStat.processing).card
      ≤ (ws.getD c.waveIdx []).toFinset.card := Finset.card_le_card hsub
    _ ≤ (ws.getD c.waveIdx []).length := List.toFinset_card_le _
    _ ≤ m := hwave

/-! ## Retry-loop lemmas -/

/-- The callback-presence tag: values are recorded only when a callback
is registered. -/
def cbTag (cb : Option (Nat → Option String)) (l : List Nat) : List Nat :=
  match cb with
  | none => []
  | some _ => l

theorem failTerminal_fst (cb : Option (Nat → Option String)) (emsg : String)
    (j : JobRec) (g : RunState) :
    (failTerminal cb emsg j g).1 =
      { j with status := "failed", error := some emsg,
               endTimeWrites := j.endTimeWrites + 1,
               failedAppends := j.failedAppends + 1 } := by
  cases cb <;> rfl

theorem failTerminal_ledger (cb : Option (Nat → Option String)) (emsg : String)
    (j : JobRec) (g : RunState) :
    (failTerminal cb emsg j g).2.ledger = g.ledger + 1 := by
  cases cb <;> rfl

theorem failTerminal_cbValues (cb : Option (Nat → Option String)) (emsg : String)
    (j : JobRec) (g : RunState) :
    (failTerminal cb emsg j g).2.cbValues = g.cbValues ++ cbTag cb [g.ledger + 1] := by
  cases cb <;> simp [failTerminal, cbTag]

/-- Whatever the port and the callback do, the retry loop leaves the job
in a terminal status. -/
theorem jobAttempts_status_terminal (port : Nat → Except String Unit)
    (cb : Option (Nat → Option String)) :
    ∀ (fuel attempt : Nat) (j : JobRec) (g : RunState), fuel ≠ 0 →
      (jobAttempts port cb attempt fuel j g).1.status = "completed" ∨
      (jobAttempts port cb attempt fuel j g).1.status = "failed" := by
  intro fuel
  induction fuel with
  | zero => intro _ _ _ h; exact absurd rfl h
  | succ f ih =>
    intro attempt j g _
    cases hpa : port attempt with
    | ok u =>
      cases hcb : cb with
      | none => left; simp [jobAttempts, hpa, hcb]
      | some fc =>
        cases hfc : fc (g.ledger + 1) with
        | none => left; simp [jobAttempts, hpa, hcb, hfc]
        | some emsg =>
          by_cases hf : f = 0
          · subst hf
            right
            simp [jobAttempts, hpa, hcb, hfc, failTerminal_fst]
          · rw [hcb] at ih
            simp only [jobAttempts, hpa, hcb, hfc, if_neg hf]
            exact ih (attempt + 1) _ _ hf
    | error emsg =>
      by_cases hf : f = 0
      · subst hf
        right
        simp [jobAttempts, hpa, failTerminal_fst]
      · simp only [jobAttempts, hpa, if_neg hf]
        exact ih (attempt + 1) _ _ hf

/-- The loop makes at most `fuel` further generation attempts: with the
initial fuel `retry_attempts + 1` this is the spec's
`attempt_count ≤ retry_limit + 1`. -/
theorem jobAttempts_attempts_le (port : Nat → Except String Unit)
    (cb : Option (Nat → Option String)) :
    ∀ (fuel attempt : Nat) (j : JobRec) (g : RunState),
      (jobAttempts port cb attempt fuel j g).1.attemptsMade ≤ j.attemptsMade + fuel := by
  intro fuel
  induction fuel with
  | zero => intro _ j _; simp [jobAttempts]
  | succ f ih =>
    intro attempt j g
    cases hpa : port attempt with
    | ok u =>
      cases hcb : cb with
      | none => simp [jobAttempts, hpa, hcb]
      | some fc =>
        cases hfc : fc (g.ledger + 1) with
        | none => simp [jobAttempts, hpa, hcb, hfc]
        | some emsg =>
          by_cases hf : f = 0
          · subst hf
            simp [jobAttempts, hpa, hcb, hfc, failTerminal_fst]
          · rw [hcb] at ih
            simp only [jobAttempts, hpa, hcb, hfc, if_neg hf]
            have := ih (attempt + 1)
              { j with attemptsMade := j.attemptsMade + 1,
                       status := "completed",
                       endTimeWrites := j.endTimeWrites + 1,
                       completedAppends := j.completedAppends + 1,
                       sleeps := j.sleeps ++ [2 ^ attempt] }
              { ledger := g.ledger + 1, cbValues := g.cbValues ++ [g.ledger + 1] }
            simp only at this
            omega
    | error emsg =>
      by_cases hf : f = 0
      · subst hf
        simp [jobAttempts, hpa, failTerminal_fst]
      · simp only [jobAttempts, hpa, if_neg hf]
        have := ih (attempt + 1)
          { j with attemptsMade := j.attemptsMade + 1,
                   sleeps := j.sleeps ++ [2 ^ attempt] } g
        simp only at this
        omega

/-- When the registered callback never raises, one pass of the retry loop
performs exactly one terminal ledger update: the two bucket counters grow
by one in total (and only one of them grows), `end_time` is written
exactly once, the ledger grows by one, and exactly one progress value -
the new ledger size - is reported when a callback is registered. -/
theorem jobAttempts_good (port : Nat → Except String Unit)
    (cb : Option (Nat → Option String)) (hcb : GoodCb cb) :
    ∀ (fuel attempt : Nat) (j : JobRec) (g : RunState), fuel ≠ 0 →
      (jobAttempts port cb attempt fuel j g).1.completedAppends +
        (jobAttempts port cb attempt fuel j g).1.failedAppends =
        j.completedAppends + j.failedAppends + 1 ∧
      ((jobAttempts port cb attempt fuel j g).1.completedAppends = j.completedAppends ∨
        (jobAttempts port cb attempt fuel j g).1.failedAppends = j.failedAppends) ∧
      (jobAttempts port cb attempt fuel j g).1.endTimeWrites = j.endTimeWrites + 1 ∧
      (jobAttempts port cb attempt fuel j g).2.ledger = g.ledger + 1 ∧
      (jobAttempts port cb attempt fuel j g).2.cbValues =
        g.cbValues ++ cbTag cb [g.ledger + 1] := by
  intro fuel
  induction fuel with
  | zero => intro _ _ _ h; exact absurd rfl h
  | succ f ih =>
    intro attempt j g _
    cases hpa : port attempt with
    | ok u =>
      cases hcbe : cb with
      | none =>
        simp [jobAttempts, hpa, hcbe, cbTag]
        omega
      | some fc =>
        have hfc : fc (g.ledger + 1) = none := hcb fc hcbe (g.ledger + 1)
        simp [jobAttempts, hpa, hcbe, hfc, cbTag]
        omega
    | error emsg =>
      by_cases hf : f = 0
      · subst hf
        simp [jobAttempts, hpa, failTerminal_fst, failTerminal_ledger,
          failTerminal_cbValues]
        omega
      · simp only [jobAttempts, hpa, if_neg hf]
        have := ih (attempt + 1)
          { j with attemptsMade := j.attemptsMade + 1,
                   sleeps := j.sleeps ++ [2 ^ attempt] } g hf
        simp only at this
        exact this

/-- When every attempt of the port fails, the loop consumes all its fuel,
the job ends `"failed"` with the last failure message, it is appended to
`failed_jobs` once and to `completed_jobs` never, and the recorded
backoff sleeps are `2 ^ attempt` for each non-final failed attempt. -/
theorem jobAttempts_all_fail (port : Nat → Except String Unit)
    (cb : Option (Nat → Option String)) (hfail : ∀ k, ∃ m, port k = Except.error m) :
    ∀ (fuel attempt : Nat) (j : JobRec) (g : RunState), fuel ≠ 0 →
      (jobAttempts port cb attempt fuel j g).1.status = "failed" ∧
      (jobAttempts port cb attempt fuel j g).1.attemptsMade = j.attemptsMade + fuel ∧
      (∀ m, port (attempt + fuel - 1) = Except.error m →
        (jobAttempts port cb attempt fuel j g).1.error = some m) ∧
      (jobAttempts port cb attempt fuel j g).1.completedAppends = j.completedAppends ∧
      (jobAttempts port cb attempt fuel j g).1.failedAppends = j.failedAppends + 1 ∧
      (jobAttempts port cb attempt fuel j g).1.sleeps =
        j.sleeps ++ (List.range' attempt (fuel - 1)).map fun k => 2 ^ k := by
  intro fuel
  induction fuel with
  | zero => intro _ _ _ h; exact absurd rfl h
  | succ f ih =>
    intro attempt j g _
    obtain ⟨emsg, hpa⟩ := hfail attempt
    by_cases hf : f = 0
    · subst hf
      have hidx : attempt + 1 - 1 = attempt := by omega
      refine ⟨by simp [jobAttempts, hpa, failTerminal_fst],
              by simp [jobAttempts, hpa, failTerminal_fst],
              ?_,
              by simp [jobAttempts, hpa, failTerminal_fst],
              by simp [jobAttempts, hpa, failTerminal_fst],
              by simp [jobAttempts, hpa, failTerminal_fst]⟩
      intro m hm
      rw [hidx, hpa] at hm
      injection hm with hh
      simp [jobAttempts, hpa, failTerminal_fst, hh]
    · simp only [jobAttempts, hpa, if_neg hf]
      have := ih (attempt + 1)
        { j with attemptsMade := j.attemptsMade + 1,
                 sleeps := j.sleeps ++ [2 ^ attempt] } g hf
      simp only at this
      obtain ⟨hst, hat, herr, hca, hfa, hsl⟩ := this
      refine ⟨hst, by omega, ?_, hca, hfa, ?_⟩
      · intro m hm
        apply herr
        have : attempt + 1 + f - 1 = attempt + (f + 1) - 1 := by omega
        rw [this]
        exact hm
      · rw [hsl]
        obtain ⟨f', rfl⟩ : ∃ f', f = f' + 1 := ⟨f - 1, by omega⟩
        simp only [Nat.add_sub_cancel]
        rw [List.append_assoc, List.range'_succ]
        simp

/-! ## Aggregation over the job list -/

theorem cbTag_append (cb : Option (Nat → Option String)) (a b : List Nat) :
    cbTag cb (a ++ b) = cbTag cb a ++ cbTag cb b := by
  cases cb <;> simp [cbTag]

theorem runJobsInOrder_append (ra : Nat) (port : Nat → Nat → Except String Unit)
    (cb : Option (Nat → Option String)) :
    ∀ (a b : List (Nat × String × String)) (g : RunState),
      runJobsInOrder ra port cb (a ++ b) g =
        ((runJobsInOrder ra port cb a g).1 ++
          (runJobsInOrder ra port cb b (runJobsInOrder ra port cb a g).2).1,
         (runJobsInOrder ra port cb b (runJobsInOrder ra port cb a g).2).2) := by
  intro a
  induction a with
  | nil => intro b g; simp [runJobsInOrder]
  | cons x xs ih =>
    intro b g
    obtain ⟨i, id, p⟩ := x
    simp only [List.cons_append, runJobsInOrder, List.append_eq, ih]

theorem runWaves_eq_inOrder (ra : Nat) (port : Nat → Nat → Except String Unit)
    (cb : Option (Nat → Option String)) :
    ∀ (ws : List (List (Nat × String × String))) (g : RunState),
      runWaves ra port cb ws g = runJobsInOrder ra port cb ws.flatten g := by
  intro ws
  induction ws with
  | nil => intro g; rfl
  | cons w rest ih =>
    intro g
    simp only [runWaves, List.flatten_cons, runJobsInOrder_append, ih]

/-- Aggregate form of `jobAttempts_good` over a job list: with a
never-raising callback every job contributes exactly one terminal ledger
update, the ledger grows by the number of jobs, and the reported
progress values are the consecutive ledger sizes. -/
theorem runJobsInOrder_good (ra : Nat) (port : Nat → Nat → Except String Unit)
    (cb : Option (Nat → Option String)) (hcb : GoodCb cb) :
    ∀ (l : List (Nat × String × String)) (g : RunState),
      ((runJobsInOrder ra port cb l g).1.map JobRec.completedAppends).sum +
        ((runJobsInOrder ra port cb l g).1.map JobRec.failedAppends).sum = l.length ∧
      (∀ j ∈ (runJobsInOrder ra port cb l g).1,
        (j.completedAppends = 1 ∧ j.failedAppends = 0) ∨
        (j.completedAppends = 0 ∧ j.failedAppends = 1)) ∧
      (∀ j ∈ (runJobsInOrder ra port cb l g).1, j.endTimeWrites = 1) ∧
      (runJobsInOrder ra port cb l g).2.ledger = g.ledger + l.length ∧
      (runJobsInOrder ra port cb l g).2.cbValues =
        g.cbValues ++ cbTag cb (List.range' (g.ledger + 1) l.length) := by
  intro l
  induction l with
  | nil =>
    intro g
    refine ⟨by simp [runJobsInOrder], by simp [runJobsInOrder], by simp [runJobsInOrder],
            by simp [runJobsInOrder], ?_⟩
    cases cb <;> simp [runJobsInOrder, cbTag]
  | cons x xs ih =>
    intro g
    obtain ⟨i, id, p⟩ := x
    have hpsj : process_single_job ra (port i) cb id p g =
      jobAttempts (port i) cb 0 (ra + 1) (initJob id p) g := rfl
    obtain ⟨hsum1, hone1, hend1, hled1, hcbv1⟩ :=
      jobAttempts_good (port i) cb hcb (ra + 1) 0 (initJob id p) g (Nat.succ_ne_zero ra)
    rw [show (initJob id p).completedAppends = 0 from rfl,
        show (initJob id p).failedAppends = 0 from rfl] at hsum1 hone1
    rw [show (initJob id p).endTimeWrites = 0 from rfl] at hend1
    obtain ⟨hsum2, hone2, hend2, hled2, hcbv2⟩ :=
      ih (jobAttempts (port i) cb 0 (ra + 1) (initJob id p) g).2
    refine ⟨?_, ?_, ?_, ?_, ?_⟩
    · simp only [runJobsInOrder, hpsj, List.map_cons, List.sum_cons, List.length_cons]
      omega
    · intro j hj
      simp only [runJobsInOrder, hpsj, List.mem_cons] at hj
      rcases hj with hj | hj
      · subst hj; omega
      · exact hone2 j hj
    · intro j hj
      simp only [runJobsInOrder, hpsj, List.mem_cons] at hj
      rcases hj with hj | hj
      · subst hj; omega
      · exact hend2 j hj
    · simp only [runJobsInOrder, hpsj, List.length_cons]
      omega
    · simp only [runJobsInOrder, hpsj, List.length_cons]
      rw [hcbv2, hled1, hcbv1, List.append_assoc, ← cbTag_append,
        List.range'_succ, List.singleton_append]

/-- Whatever the ports and the callback do, every job of the list comes
back with a terminal status, and one record per job is produced. -/
theorem runJobsInOrder_terminal (ra : Nat) (port : Nat → Nat → Except String Unit)
    (cb : Option (Nat → Option String)) :
    ∀ (l : List (Nat × String × String)) (g : RunState),
      (runJobsInOrder ra port cb l g).1.length = l.length ∧
      ∀ j ∈ (runJobsInOrder ra port cb l g).1,
        j.status = "completed" ∨ j.status = "failed" := by
  intro l
  induction l with
  | nil => intro g; simp [runJobsInOrder]
  | cons x xs ih =>
    intro g
    obtain ⟨i, id, p⟩ := x
    obtain ⟨hlen, hterm⟩ := ih (process_single_job ra (port i) cb id p g).2
    refine ⟨?_, ?_⟩
    · simp only [runJobsInOrder, List.length_cons, hlen]
    · intro j hj
      simp only [runJobsInOrder, List.mem_cons] at hj
      rcases hj with hj | hj
      · subst hj
        exact jobAttempts_status_terminal (port i) cb (ra + 1) 0 (initJob id p) g
          (Nat.succ_ne_zero ra)
      · exact hterm j hj

theorem enumJobs_length (jobs : List (String × String)) :
    (enumJobs jobs).length = jobs.length := by
  simp [enumJobs]

/-- With jobs loaded and a positive concurrency setting, `process_batch`
returns the summary built from the linearized execution of the job
list. -/
theorem process_batch_ok {maxConc retryAttempts : Nat} {jobs : List (String × String)}
    (port : Nat → Nat → Except String Unit) (cb : Option (Nat → Option String))
    (hj : jobs ≠ []) (hm : maxConc ≠ 0) :
    process_batch maxConc retryAttempts jobs port cb = Except.ok
      { summary :=
          { totalJobs := jobs.length
            completed := ((runJobsInOrder retryAttempts port cb (enumJobs jobs)
              { ledger := 0, cbValues := [] }).1.map JobRec.completedAppends).sum
            failed := ((runJobsInOrder retryAttempts port cb (enumJobs jobs)
              { ledger := 0, cbValues := [] }).1.map JobRec.failedAppends).sum
            failedJobs := ((runJobsInOrder retryAttempts port cb (enumJobs jobs)
              { ledger := 0, cbValues := [] }).1.filter fun j => j.failedAppends != 0).map
              fun j => (j.id, j.prompt, j.error) }
        jobs := (runJobsInOrder retryAttempts port cb (enumJobs jobs)
          { ledger := 0, cbValues := [] }).1
        cbValues := (runJobsInOrder retryAttempts port cb (enumJobs jobs)
          { ledger := 0, cbValues := [] }).2.cbValues
        waveDelays := List.replicate (waveSlices maxConc (enumJobs jobs)).length 1 } := by
  have hflat : (waveSlices maxConc (enumJobs jobs)).flatten = enumJobs jobs :=
    chunksAux_join (Nat.pos_of_ne_zero hm) _ _ le_rfl
  unfold process_batch
  rw [if_neg hj, if_neg hm]
  simp only [runWaves_eq_inOrder, hflat]

/-! ## Helper facts about consecutive progress values -/

theorem range'_pairwise_le : ∀ (s n : Nat), (List.range' s n).Pairwise (· ≤ ·) := by
  intro s n
  induction n generalizing s with
  | zero => exact List.Pairwise.nil
  | succ k ih =>
    rw [List.range'_succ]
    refine List.Pairwise.cons ?_ (ih (s + 1))
    intro b hb
    have := (List.mem_range'_1.mp hb).1
    omega

theorem range'_one_getLast (n : Nat) (hn : n ≠ 0) :
    (List.range' 1 n).getLast? = some n := by
  obtain ⟨k, rfl⟩ : ∃ k, n = k + 1 := ⟨n - 1, by omega⟩
  rw [List.range'_concat, List.getLast?_concat]
  simp
  omega

theorem range'_one_count (n : Nat) (hn : n ≠ 0) :
    (List.range' 1 n).count n = 1 := by
  refine List.count_eq_one_of_mem (List.nodup_range' 1 n) ?_
  rw [List.mem_range'_1]
  omega

/-! ## Claim theorems -/

/-- C1 (corrected).  The claim as stated fails when the progress callback
raises (see the counterexample); amended with the hypothesis that the
registered callback never raises, it holds: whenever `process_batch`
returns, the summary satisfies `completed + failed = total_jobs` and
every job is appended to exactly one of `completed_jobs` /
`failed_jobs`, exactly once. -/
theorem C1_counts_reconcile_good_callback (maxConc retryAttempts : Nat)
    (jobs : List (String × String)) (port : Nat → Nat → Except String Unit)
    (cb : Option (Nat → Option String)) (hcb : GoodCb cb)
    (hj : jobs ≠ []) (hm : maxConc ≠ 0) :
    ∃ out, process_batch maxConc retryAttempts jobs port cb = Except.ok out ∧
      out.summary.completed + out.summary.failed = out.summary.totalJobs ∧
      ∀ j ∈ out.jobs,
        (j.completedAppends = 1 ∧ j.failedAppends = 0) ∨
        (j.completedAppends = 0 ∧ j.failedAppends = 1) := by
  obtain ⟨hsum, hone, -, -, -⟩ :=
    runJobsInOrder_good retryAttempts port cb hcb (enumJobs jobs)
      { ledger := 0, cbValues := [] }
  refine ⟨_, process_batch_ok port cb hj hm, ?_, ?_⟩
  · rw [enumJobs_length] at hsum
    exact hsum
  · exact hone

/-- C1, counterexample to the claim as stated: one job, `retry_attempts
= 1`, generation succeeds on every attempt, but the progress callback
raises; the run returns a summary with `completed = 2`, `failed = 1` for
a single job (`2 + 1 ≠ 1`), and the job record shows two appends to
`completed_jobs` and one to `failed_jobs` - the same job sits in both
buckets. -/
theorem C1_raising_callback_breaks_counts :
    (process_batch 1 1 [("job_001", "p")] (fun _ _ => Except.ok ())
        (some fun _ => some "boom")).map
      (fun o => (o.summary.totalJobs, o.summary.completed, o.summary.failed,
        o.jobs.map fun j => (j.completedAppends, j.failedAppends))) =
      Except.ok (1, 2, 1, [(2, 1)]) ∧ 2 + 1 ≠ 1 := by
  exact ⟨rfl, by decide⟩

/-- C1 witness: the amended theorem applied to one job with a successful
port and no callback. -/
theorem C1_counts_reconcile_good_callback_witness :
    GoodCb none ∧ ([(("job_001" : String), ("p" : String))] ≠ []) ∧ (1 : Nat) ≠ 0 ∧
    ∃ out, process_batch 1 0 [("job_001", "p")] (fun _ _ => Except.ok ()) none =
        Except.ok out ∧
      out.summary.completed + out.summary.failed = out.summary.totalJobs ∧
      ∀ j ∈ out.jobs,
        (j.completedAppends = 1 ∧ j.failedAppends = 0) ∨
        (j.completedAppends = 0 ∧ j.failedAppends = 1) :=
  have hcb : GoodCb none := fun f h => by cases h
  ⟨hcb, by decide, by decide,
    C1_counts_reconcile_good_callback 1 0 [("job_001", "p")]
      (fun _ _ => Except.ok ()) none hcb (by decide) (by decide)⟩

/-- C5 (corrected).  With a port failing on every attempt the job ends
`"failed"` after exactly `retry_attempts + 1` generation attempts (and no
execution ever makes more), it is put in the failed bucket only, and
`job.error` is set to the string of the last failure - which is non-empty
only when that string is; the claim's unconditional "non-empty error"
fails for an exception stringifying to `""` (see the counterexample). -/
theorem C5_exhausted_retries_amended (retryAttempts : Nat)
    (port : Nat → Except String Unit) (cb : Option (Nat → Option String))
    (id prompt : String) (g : RunState)
    (hfail : ∀ k, ∃ m, port k = Except.error m) :
    (process_single_job retryAttempts port cb id prompt g).1.status = "failed" ∧
    (process_single_job retryAttempts port cb id prompt g).1.attemptsMade =
      retryAttempts + 1 ∧
    (∀ m, port retryAttempts = Except.error m →
      (process_single_job retryAttempts port cb id prompt g).1.error = some m) ∧
    (process_single_job retryAttempts port cb id prompt g).1.completedAppends = 0 ∧
    (process_single_job retryAttempts port cb id prompt g).1.failedAppends = 1 ∧
    ∀ (port' : Nat → Except String Unit) (cb' : Option (Nat → Option String)),
      (process_single_job retryAttempts port' cb' id prompt g).1.attemptsMade ≤
        retryAttempts + 1 := by
  obtain ⟨hst, hat, herr, hca, hfa, -⟩ :=
    jobAttempts_all_fail port cb hfail (retryAttempts + 1) 0 (initJob id prompt) g
      (Nat.succ_ne_zero retryAttempts)
  refine ⟨hst, ?_, ?_, hca, hfa, ?_⟩
  · simp only [process_single_job]
    rw [hat]
    simp [initJob]
  · intro m hm
    apply herr
    have h01 : 0 + (retryAttempts + 1) - 1 = retryAttempts := by omega
    rw [h01]
    exact hm
  · intro port' cb'
    have := jobAttempts_attempts_le port' cb' (retryAttempts + 1) 0 (initJob id prompt) g
    simpa [process_single_job, initJob] using this

/-- C5, counterexample to the unconditional "non-empty error": a port
whose failure stringifies to the empty string (Python
`str(ValueError()) == ""`) yields a Failed job whose recorded error is
the empty string. -/
theorem C5_empty_error_message_possible :
    (process_single_job 0 (fun _ => Except.error "") none "job_001" "p"
        { ledger := 0, cbValues := [] }).1.status = "failed" ∧
    (process_single_job 0 (fun _ => Except.error "") none "job_001" "p"
        { ledger := 0, cbValues := [] }).1.error = some "" ∧
    ("" : String).length = 0 := by
  decide

/-- C5 witness: the amended theorem applied to a concrete always-failing
port. -/
theorem C5_exhausted_retries_amended_witness :
    (process_single_job 2 (fun _ => Except.error "boom") none "job_001" "p"
        { ledger := 0, cbValues := [] }).1.status = "failed" ∧
    (process_single_job 2 (fun _ => Except.error "boom") none "job_001" "p"
        { ledger := 0, cbValues := [] }).1.attemptsMade = 2 + 1 ∧
    (∀ m, (fun _ => Except.error "boom" : Nat → Except String Unit) 2 = Except.error m →
      (process_single_job 2 (fun _ => Except.error "boom") none "job_001" "p"
        { ledger := 0, cbValues := [] }).1.error = some m) ∧
    (process_single_job 2 (fun _ => Except.error "boom") none "job_001" "p"
        { ledger := 0, cbValues := [] }).1.completedAppends = 0 ∧
    (process_single_job 2 (fun _ => Except.error "boom") none "job_001" "p"
        { ledger := 0, cbValues := [] }).1.failedAppends = 1 ∧
    ∀ (port' : Nat → Except String Unit) (cb' : Option (Nat → Option String)),
      (process_single_job 2 port' cb' "job_001" "p"
        { ledger := 0, cbValues := [] }).1.attemptsMade ≤ 2 + 1 :=
  C5_exhausted_retries_amended 2 (fun _ => Except.error "boom") none "job_001" "p"
    { ledger := 0, cbValues := [] } (fun _ => ⟨"boom", rfl⟩)

/-- C6 (corrected).  The claim says the wait after a failed attempt is
`2 ^ attempt_count` with `attempt_count` the number of attempts made so
far; the code sleeps `2 ** attempt` with `attempt` the 0-based index of
the failed attempt, i.e. `2 ^ (attempt_count - 1)`: the backoff schedule
of a job whose attempts keep failing is `1, 2, 4, ...`, namely `2 ^ k`
before retry `k + 2`. -/
theorem C6_backoff_schedule_amended (retryAttempts : Nat)
    (port : Nat → Except String Unit) (cb : Option (Nat → Option String))
    (id prompt : String) (g : RunState)
    (hfail : ∀ k, ∃ m, port k = Except.error m) :
    (process_single_job retryAttempts port cb id prompt g).1.sleeps =
      (List.range retryAttempts).map fun k => 2 ^ k := by
  obtain ⟨-, -, -, -, -, hsl⟩ :=
    jobAttempts_all_fail port cb hfail (retryAttempts + 1) 0 (initJob id prompt) g
      (Nat.succ_ne_zero retryAttempts)
  simp only [process_single_job]
  rw [hsl]
  simp [initJob, List.range_eq_range']

/-- C6, counterexample to the claim as stated: `retry_attempts = 1`, the
first attempt fails (so `attempt_count = 1` when the wait happens); the
claim demands a wait of `2 ^ 1 = 2`, the code sleeps
`2 ** 0 = 1`. -/
theorem C6_backoff_is_half_of_claimed :
    (process_single_job 1 (fun _ => Except.error "boom") none "job_001" "p"
        { ledger := 0, cbValues := [] }).1.sleeps = [1] ∧ (2 : Nat) ^ 1 ≠ 1 := by
  decide

/-- C6 witness: the amended schedule for three always-failing attempts is
`[1, 2]`. -/
theorem C6_backoff_schedule_amended_witness :
    (process_single_job 2 (fun _ => Except.error "boom") none "job_001" "p"
        { ledger := 0, cbValues := [] }).1.sleeps =
      (List.range 2).map fun k => 2 ^ k :=
  C6_backoff_schedule_amended 2 (fun _ => Except.error "boom") none "job_001" "p"
    { ledger := 0, cbValues := [] } (fun _ => ⟨"boom", rfl⟩)

/-- C7 (code bug, evaluation at the failing input).  One job whose
generation succeeds on every attempt but whose progress callback raises:
because the callback is invoked inside the retry `try:` block, the job is
appended to `completed_jobs` twice and to `failed_jobs` once, `end_time`
is written three times, and the final status is `"failed"` even though
every generation succeeded - there is no unique terminal ledger
update. -/
theorem C7_ledger_update_not_unique_eval :
    (process_single_job 1 (fun _ => Except.ok ()) (some fun _ => some "boom")
        "job_001" "p" { ledger := 0, cbValues := [] }).1.completedAppends = 2 ∧
    (process_single_job 1 (fun _ => Except.ok ()) (some fun _ => some "boom")
        "job_001" "p" { ledger := 0, cbValues := [] }).1.failedAppends = 1 ∧
    (process_single_job 1 (fun _ => Except.ok ()) (some fun _ => some "boom")
        "job_001" "p" { ledger := 0, cbValues := [] }).1.endTimeWrites = 3 ∧
    (process_single_job 1 (fun _ => Except.ok ()) (some fun _ => some "boom")
        "job_001" "p" { ledger := 0, cbValues := [] }).1.status = "failed" := by
  decide

/-- C8 (confirmed).  Whatever the per-attempt outcomes of every job's
generation calls and whatever the callback does, `process_batch` on a
non-empty job list returns a summary (never an exception): the record
count equals the job count and every job reaches a terminal status - a
failing job aborts neither its wave siblings nor the run. -/
theorem C8_failure_containment (maxConc retryAttempts : Nat)
    (jobs : List (String × String)) (port : Nat → Nat → Except String Unit)
    (cb : Option (Nat → Option String)) (hj : jobs ≠ []) (hm : maxConc ≠ 0) :
    ∃ out, process_batch maxConc retryAttempts jobs port cb = Except.ok out ∧
      out.summary.totalJobs = jobs.length ∧
      out.jobs.length = jobs.length ∧
      ∀ j ∈ out.jobs, j.status = "completed" ∨ j.status = "failed" := by
  obtain ⟨hlen, hterm⟩ :=
    runJobsInOrder_terminal retryAttempts port cb (enumJobs jobs)
      { ledger := 0, cbValues := [] }
  refine ⟨_, process_batch_ok port cb hj hm, rfl, ?_, hterm⟩
  rw [hlen, enumJobs_length]

/-- C8 witness: a two-job batch in which the first job's generation
always raises still yields a summary with both jobs terminal. -/
theorem C8_failure_containment_witness :
    ([(("a" : String), ("p" : String)), ("b", "q")] ≠ []) ∧ (2 : Nat) ≠ 0 ∧
    ∃ out, process_batch 2 0 [("a", "p"), ("b", "q")]
        (fun i _ => if i = 0 then Except.error "boom" else Except.ok ()) none =
        Except.ok out ∧
      out.summary.totalJobs = 2 ∧
      out.jobs.length = 2 ∧
      ∀ j ∈ out.jobs, j.status = "completed" ∨ j.status = "failed" :=
  ⟨by decide, by decide,
    C8_failure_containment 2 0 [("a", "p"), ("b", "q")]
      (fun i _ => if i = 0 then Except.error "boom" else Except.ok ()) none
      (by decide) (by decide)⟩

/-- C9 (corrected).  The claim as stated fails when the registered
callback raises (see the counterexample); amended with a never-raising
callback it holds: the `completed_so_far` values passed to the callback
are `1, 2, ..., total` in order - non-decreasing, one call per terminal
job transition, and equal to `total` exactly once, at the very end. -/
theorem C9_progress_monotone_amended (maxConc retryAttempts : Nat)
    (jobs : List (String × String)) (port : Nat → Nat → Except String Unit)
    (f : Nat → Option String) (hgood : ∀ c, f c = none)
    (hj : jobs ≠ []) (hm : maxConc ≠ 0) :
    ∃ out, process_batch maxConc retryAttempts jobs port (some f) = Except.ok out ∧
      out.cbValues = List.range' 1 out.summary.totalJobs ∧
      List.Chain' (· ≤ ·) out.cbValues ∧
      out.cbValues.length = out.summary.totalJobs ∧
      out.cbValues.getLast? = some out.summary.totalJobs ∧
      out.cbValues.count out.summary.totalJobs = 1 := by
  have hcb : GoodCb (some f) := by
    intro f' hf'
    injection hf' with hf'
    subst hf'
    exact hgood
  obtain ⟨-, -, -, -, hcbv⟩ :=
    runJobsInOrder_good retryAttempts port (some f) hcb (enumJobs jobs)
      { ledger := 0, cbValues := [] }
  have hn : (enumJobs jobs).length = jobs.length := enumJobs_length jobs
  have hne : jobs.length ≠ 0 := fun h => hj (List.length_eq_zero.mp h)
  refine ⟨_, process_batch_ok port (some f) hj hm, ?_, ?_, ?_, ?_, ?_⟩
  · rw [hcbv, hn]
    simp [cbTag]
  · rw [hcbv, hn]
    simp only [cbTag, List.nil_append]
    exact (range'_pairwise_le 1 jobs.length).chain'
  · rw [hcbv, hn]
    simp [cbTag, List.length_range']
  · rw [hcbv, hn]
    simp only [cbTag, List.nil_append]
    exact range'_one_getLast jobs.length hne
  · rw [hcbv, hn]
    simp only [cbTag, List.nil_append]
    exact range'_one_count jobs.length hne

/-- C9, counterexample to the claim as stated: with a raising callback
the reported values are `[1, 2, 3]` for a single-job run (`total = 1`):
the value `1 = total` is reported once, but not at the end - the run ends
reporting `3`. -/
theorem C9_progress_exceeds_total :
    (process_batch 1 1 [("job_001", "p")] (fun _ _ => Except.ok ())
        (some fun _ => some "boom")).map
      (fun o => (o.cbValues, o.summary.totalJobs)) = Except.ok ([1, 2, 3], 1) ∧
    ([1, 2, 3] : List Nat).getLast? ≠ some 1 := by
  exact ⟨rfl, by decide⟩

/-- C9 witness: the amended theorem applied to two always-succeeding
jobs with a never-raising callback. -/
theorem C9_progress_monotone_amended_witness :
    (∀ c : Nat, (fun _ : Nat => (none : Option String)) c = none) ∧
    ([(("a" : String), ("p" : String)), ("b", "q")] ≠ []) ∧ (2 : Nat) ≠ 0 ∧
    ∃ out, process_batch 2 0 [("a", "p"), ("b", "q")] (fun _ _ => Except.ok ())
        (some fun _ => none) = Except.ok out ∧
      out.cbValues = List.range' 1 out.summary.totalJobs ∧
      List.Chain' (· ≤ ·) out.cbValues ∧
      out.cbValues.length = out.summary.totalJobs ∧
      out.cbValues.getLast? = some out.summary.totalJobs ∧
      out.cbValues.count out.summary.totalJobs = 1 :=
  ⟨fun _ => rfl, by decide, by decide,
    C9_progress_monotone_amended 2 0 [("a", "p"), ("b", "q")]
      (fun _ _ => Except.ok ()) (fun _ => none) (fun _ => rfl)
      (by decide) (by decide)⟩

/-- C2 (confirmed).  In every configuration reachable by the wave
scheduler over `n` jobs sliced into waves of the configured
`max_concurrent_requests = m`, at most `m` jobs are in the
`"processing"` state. -/
theorem C2_peak_concurrency_bound (n m : Nat) (hm : 0 < m) (c : Conf)
    (hreach : SchedReach (waveSlices m (List.range n)) c) :
    processingCount n c ≤ m := by
  have hinv := waveInv_reach (waveSlices_range_disj hm) hreach
  exact processingCount_le n m hinv (waveSlices_getD_length_le _ _)

/-- C2 witness: the bound applied to the initial configuration of a
two-job run with concurrency 1. -/
theorem C2_peak_concurrency_bound_witness :
    0 < 1 ∧ processingCount 2 initConf ≤ 1 :=
  ⟨Nat.one_pos, C2_peak_concurrency_bound 2 1 Nat.one_pos initConf SchedReach.init⟩

/-- C3 (confirmed).  The scheduler (i) concatenates its waves back to
the ordered job list, (ii) caps every wave at `m` with all but the last
wave of size exactly `m`, (iii) never lets a job of wave `N + 1` leave
`"pending"` before every job of wave `N` is terminal, (iv) sleeps the
fixed delay 1 after every wave, and (v) on the 7-job / `m = 3` /
`retry_limit = 0` all-success scenario produces waves of sizes
`(3, 3, 1)` with `completed = 7`, `failed = 0`. -/
theorem C3_wave_schedule :
    (∀ (m : Nat) (l : List (Nat × String × String)), 0 < m →
      (waveSlices m l).flatten = l) ∧
    (∀ (m : Nat) (l w : List (Nat × String × String)),
      w ∈ waveSlices m l → w.length ≤ m) ∧
    (∀ (m : Nat) (l : List (Nat × String × String)) (i : Nat), 0 < m →
      i + 1 < (waveSlices m l).length → ((waveSlices m l).getD i []).length = m) ∧
    (∀ (n m N : Nat) (c : Conf), 0 < m →
      SchedReach (waveSlices m (List.range n)) c →
      (∃ j ∈ (waveSlices m (List.range n)).getD (N + 1) [], c.st j ≠ JStat.pending) →
      ∀ j ∈ (waveSlices m (List.range n)).getD N [], JTerminal (c.st j)) ∧
    (∀ (maxConc retryAttempts : Nat) (jobs : List (String × String))
      (port : Nat → Nat → Except String Unit) (cb : Option (Nat → Option String))
      (out : BatchOutcome),
      process_batch maxConc retryAttempts jobs port cb = Except.ok out →
      out.waveDelays = List.replicate (waveSlices maxConc (enumJobs jobs)).length 1) ∧
    ((waveSlices 3 (List.range 7)).map List.length = [3, 3, 1] ∧
      (process_batch 3 0 sevenJobs (fun _ _ => Except.ok ()) (some fun _ => none)).map
        (fun o => (o.summary.completed, o.summary.failed, o.waveDelays)) =
        Except.ok (7, 0, [1, 1, 1])) := by
  refine ⟨?_, ?_, ?_, ?_, ?_, by decide, rfl⟩
  · intro m l hm
    exact chunksAux_join hm _ _ le_rfl
  · intro m l w hw
    exact chunksAux_mem_length_le _ _ _ hw
  · intro m l i hm hi
    exact chunksAux_getD_full hm _ _ _ le_rfl hi
  · intro n m N c hm hreach hex
    obtain ⟨hinv1, hinv2, hinv3⟩ := waveInv_reach (waveSlices_range_disj hm) hreach
    obtain ⟨j0, hj0mem, hj0⟩ := hex
    have hidx : N + 1 ≤ c.waveIdx := by
      by_contra hc
      exact hj0 (hinv3 (N + 1) (by omega) j0 hj0mem)
    intro j hjmem
    exact hinv2 N (by omega) j hjmem
  · intro maxConc retryAttempts jobs port cb out h
    by_cases hj : jobs = []
    · rw [process_batch, if_pos hj] at h
      cases h
    by_cases hm : maxConc = 0
    · rw [process_batch, if_neg hj, if_pos hm] at h
      cases h
    rw [process_batch_ok port cb hj hm] at h
    injection h with h
    subst h
    rfl

/-- C3 witness: the partition property applied to a concrete list and
wave size. -/
theorem C3_wave_schedule_witness :
    0 < 2 ∧ (waveSlices 2 [((0 : Nat), ("a" : String), ("x" : String)),
      (1, "b", "y"), (2, "c", "z")]).flatten =
      [((0 : Nat), ("a" : String), ("x" : String)), (1, "b", "y"), (2, "c", "z")] :=
  ⟨Nat.zero_lt_two, C3_wave_schedule.1 2
    [(0, "a", "x"), (1, "b", "y"), (2, "c", "z")] Nat.zero_lt_two⟩

/-- Unfolding of the `load_csv` row loop: under the hypothesis that every
non-blank row supplies a value in the `prompt` column, the loop returns
one `"pending"` job per row with a non-empty cleaned prompt, and the
returned count is both the number of loaded jobs and the number of such
rows. -/
theorem loadRows_spec (header : List String) :
    ∀ (rows : List (List String)) (i : Nat),
      (∀ row ∈ rows, row ≠ [] → ∃ v, dget (rowDict header row) "prompt" = some (some v)) →
      ∃ js n, loadRows header i rows = Except.ok (js, n) ∧
        n = js.length ∧
        (∀ j ∈ js, j.2.2 = "pending" ∧ j.2.1 ≠ "") ∧
        n = ((rows.filter fun r => r != []).countP
          fun r => (promptField header r).getD "" != "") := by
  intro rows
  induction rows with
  | nil =>
    intro i _
    exact ⟨[], 0, rfl, rfl, by simp, by simp⟩
  | cons row rest ih =>
    intro i h
    have hrest : ∀ row' ∈ rest, row' ≠ [] →
        ∃ v, dget (rowDict header row') "prompt" = some (some v) :=
      fun row' hr => h row' (List.mem_cons_of_mem row hr)
    by_cases hb : row = []
    · subst hb
      obtain ⟨js, n, heq, hlen, hjob, hcnt⟩ := ih i hrest
      refine ⟨js, n, ?_, hlen, hjob, ?_⟩
      · simpa [loadRows] using heq
      · simpa using hcnt
    · obtain ⟨v, hv⟩ := h row (List.mem_cons_self row rest) hb
      have hpf : promptField header row = some (cleanPrompt v) := by
        simp [promptField, hv]
      by_cases hp : cleanPrompt v = ""
      · obtain ⟨js, n, heq, hlen, hjob, hcnt⟩ := ih (i + 1) hrest
        refine ⟨js, n, ?_, hlen, hjob, ?_⟩
        · simp only [loadRows, if_neg hb, hv, hp, if_pos rfl]
          exact heq
        · rw [hcnt]
          simp [hb, List.countP_cons, hpf, hp]
      · obtain ⟨js, n, heq, hlen, hjob, hcnt⟩ := ih (i + 1) hrest
        refine ⟨mkLoadedJob i (cleanPrompt v) :: js, n + 1, ?_, ?_, ?_, ?_⟩
        · simp only [loadRows, if_neg hb, hv, if_neg hp, heq]
        · simp [hlen]
        · intro j hj
          rcases List.mem_cons.mp hj with hj | hj
          · subst hj
            exact ⟨rfl, hp⟩
          · exact hjob j hj
        · rw [List.filter_cons_of_pos (by simpa using hb), List.countP_cons]
          simp only [hpf, Option.getD_some]
          rw [if_pos (by simpa using hp)]
          omega

/-- C10 (corrected).  The claim as stated fails on a data row that is
shorter than the position of the `prompt` column (`DictReader` fills the
field with `None` and `None.strip()` raises `AttributeError`; see the
counterexample).  Amended with the hypothesis that every non-blank data
row supplies a value in the `prompt` column, it holds: one pending job
per row whose prompt is non-empty after stripping whitespace and
surrounding double quotes, the returned integer counts exactly those
jobs, and a header without a `prompt` column raises `ValueError` with no
job appended. -/
theorem C10_load_csv_amended :
    (∀ (header : List String) (rows : List (List String)), "prompt" ∉ header →
      load_csv header rows = Except.error "CSV must contain \x27prompt\x27 column") ∧
    (∀ (header : List String) (rows : List (List String)), "prompt" ∈ header →
      (∀ row ∈ rows, row ≠ [] → ∃ v, dget (rowDict header row) "prompt" = some (some v)) →
      ∃ js n, load_csv header rows = Except.ok (js, n) ∧
        n = js.length ∧
        (∀ j ∈ js, j.2.2 = "pending" ∧ j.2.1 ≠ "") ∧
        n = ((rows.filter fun r => r != []).countP
          fun r => (promptField header r).getD "" != "")) := by
  constructor
  · intro header rows hnp
    simp [load_csv, hnp]
  · intro header rows hp hv
    have := loadRows_spec header rows 0 hv
    simpa [load_csv, hp] using this

/-- C10, counterexample to the claim as stated: the header contains a
`prompt` column, yet on a one-field row (field belonging to the `other`
column) `load_csv` raises `AttributeError` instead of appending the
described jobs and returning their number. -/
theorem C10_short_row_raises :
    ("prompt" ∈ ["other", "prompt"]) ∧
    load_csv ["other", "prompt"] [["x"]] =
      Except.error "AttributeError: \x27NoneType\x27 object has no attribute \x27strip\x27" :=
  ⟨by decide, rfl⟩

/-- C10 witness: the amended theorem applied to a concrete two-row CSV
with one quoted prompt and one all-quotes (hence empty) prompt. -/
theorem C10_load_csv_amended_witness :
    ("prompt" ∈ ["prompt"]) ∧
    ∃ js n, load_csv ["prompt"] [["hello"], ["\x22\x22"]] = Except.ok (js, n) ∧
      n = js.length ∧
      (∀ j ∈ js, j.2.2 = "pending" ∧ j.2.1 ≠ "") ∧
      n = (([["hello"], ["\x22\x22"]].filter fun r => r != []).countP
        fun r => (promptField ["prompt"] r).getD "" != "") :=
  ⟨by decide,
    C10_load_csv_amended.2 ["prompt"] [["hello"], ["\x22\x22"]] (by decide)
      (by
        intro row hr _
        rcases List.mem_cons.mp hr with h | h
        · exact ⟨"hello", by rw [h]; rfl⟩
        · rcases List.mem_cons.mp h with h | h
          · exact ⟨"\x22\x22", by rw [h]; rfl⟩
          · cases h)⟩

/-- C4 (code bug, evaluation at the failing input).  Cancelling a
running batch with one still-pending and one in-flight job only rewrites
the stored batch record to `"cancelled"`: the processor job list is
returned bit-for-bit unchanged - the pending job keeps status
`"pending"` (not `"failed"`) and a `None` error (no `"cancelled"` error
is recorded), and nothing stops the background task from starting it. -/
theorem C4_cancel_leaves_jobs_untouched :
    cancel_batch (some { status := "processing"
                         endTimeSet := false
                         jobs := [("pending", none), ("processing", none)] }) =
      Except.ok ({ status := "cancelled"
                   endTimeSet := true
                   jobs := [("pending", none), ("processing", none)] },
        "Batch cancelled") ∧
    ("pending" : String) ≠ "failed" ∧
    (none : Option String) ≠ some "cancelled" :=
  ⟨rfl, by decide, by decide⟩
